import Mathlib

/-!
Shallow embedding of the votales-web story-graph subsystem.

Source files embedded:
* `src/components/StoryGraph.tsx` — the golden-path aggregator
  (`processGoldenPath`), the winner-node tracking, the view-model
  construction inside the component's `useMemo`, and the
  loading / empty / graph render-state selection.
* `src/components/StoryNode.tsx` — label and type-indicator rendering
  for a single node.
* `src/components/ReaderView.tsx` — the story-map fetch effect's state
  updates and the optimistic vote mutation with rollback.

JavaScript `Map` objects are embedded as association lists with the
`Map.set` upsert semantics (overwrite in place, insertion order kept);
JavaScript `Set` objects as duplicate-free lists; `Record<string, number>`
as association lists of integers.
-/

namespace Votales

/-- Node kind enumeration from `services/api.ts` (`StoryMapNodeType`). -/
inductive StoryMapNodeType where
  | ROOT
  | BRANCH
  | LEAF
deriving DecidableEq, Repr

/-- `StoryMapNode` from `services/api.ts`. -/
structure StoryMapNode where
  id : String
  label : String
  type : StoryMapNodeType
  isDeleted : Bool
deriving DecidableEq, Repr

/-- `StoryMapEdge` from `services/api.ts`: a choice edge with its vote count. -/
structure StoryMapEdge where
  sourceId : String
  targetId : String
  votes : Nat
deriving DecidableEq, Repr

/-- `StoryMapResponse` from `services/api.ts`. -/
structure StoryMapResponse where
  nodes : List StoryMapNode
  edges : List StoryMapEdge
deriving DecidableEq, Repr

/-- The `EdgeData` interface in `StoryGraph.tsx` has exactly the fields of
`StoryMapEdge` (the component feeds `mapData.edges` straight into
`processGoldenPath`). -/
abbrev EdgeData := StoryMapEdge

/-- JavaScript `Map.set` on a string-keyed map embedded as an association
list: overwrite the value in place when the key is present, append
otherwise. -/
def mapSet (m : List (String × String)) (k v : String) : List (String × String) :=
  if k ∈ m.map Prod.fst then
    m.map (fun p => if p.1 = k then (k, v) else p)
  else
    m ++ [(k, v)]

/-- JavaScript `Map.has`. -/
def mapHas (m : List (String × String)) (k : String) : Bool :=
  decide (k ∈ m.map Prod.fst)

/-- One step of the `edges.forEach` grouping loop in `processGoldenPath`
(`StoryGraph.tsx` lines 99–103): append the edge to its source's group,
creating the group on first sight of the source. -/
def groupUpsert (m : List (String × List EdgeData)) (e : EdgeData) :
    List (String × List EdgeData) :=
  if e.sourceId ∈ m.map Prod.fst then
    m.map (fun p => if p.1 = e.sourceId then (p.1, p.2 ++ [e]) else p)
  else
    m ++ [(e.sourceId, [e])]

/-- The `edgesBySource` map built by `processGoldenPath`
(`StoryGraph.tsx` lines 97–103). -/
def edgesBySource (edges : List EdgeData) : List (String × List EdgeData) :=
  edges.foldl groupUpsert []

/-- `Math.max(...sourceEdges.map(e => e.votes))` over a (nonempty) group
(`StoryGraph.tsx` line 110); vote counts are non-negative integers. -/
def maxVotes (G : List EdgeData) : Nat :=
  (G.map (fun e => e.votes)).foldl Nat.max 0

/-- The body of the `edgesBySource.forEach` loop in `processGoldenPath`
(`StoryGraph.tsx` lines 108–123): skip the group when `maxVotes` is zero,
otherwise insert the key `sourceId + "-" + targetId` (with value
`targetId`) for every edge of the group tied at `maxVotes`. -/
def processGroup (winners : List (String × String)) (sourceId : String)
    (sourceEdges : List EdgeData) : List (String × String) :=
  if maxVotes sourceEdges = 0 then winners
  else
    sourceEdges.foldl
      (fun acc e =>
        if e.votes = maxVotes sourceEdges then
          mapSet acc (sourceId ++ "-" ++ e.targetId) e.targetId
        else acc)
      winners

/-- `processGoldenPath` (`StoryGraph.tsx` lines 93–126): the winners map
from edge key `sourceId + "-" + targetId` to `targetId`. -/
def processGoldenPath (edges : List EdgeData) : List (String × String) :=
  (edgesBySource edges).foldl (fun acc p => processGroup acc p.1 p.2) []

/-- The key set of the golden-path winners map. -/
def winnerKeys (edges : List EdgeData) : List String :=
  (processGoldenPath edges).map Prod.fst

/-- The keys the aggregator emits for the group of a given source id:
`processGroup` run on that source's edges alone. -/
def winnersOfGroup (edges : List EdgeData) (s : String) : List String :=
  (processGroup [] s (edges.filter (fun e => e.sourceId = s))).map Prod.fst

/-- JavaScript `Set.add` embedded on duplicate-free lists. -/
def setAdd (l : List String) (x : String) : List String :=
  if x ∈ l then l else l ++ [x]

/-- `edgeKey.split('-')[0]` (`StoryGraph.tsx` line 180): the prefix of the
string before its first `'-'` (the whole string when there is none). -/
def splitFirst (s : String) : String :=
  String.mk (s.toList.takeWhile (fun c => c ≠ '-'))

/-- The `winnerNodes` set built from the golden-path map
(`StoryGraph.tsx` lines 177–183): for each entry the code adds
`edgeKey.split('-')[0]` and the stored target id. -/
def winnerNodes (goldenPath : List (String × String)) : List String :=
  goldenPath.foldl (fun acc p => setAdd (setAdd acc (splitFirst p.1)) p.2) []

/-- The `data` record handed to the custom `StoryNode` renderer
(`StoryNode.tsx`, `StoryNodeData`). -/
structure StoryNodeData where
  label : String
  nodeType : StoryMapNodeType
  isCurrent : Bool
  isOnWinnerPath : Bool
  isDeleted : Bool
deriving DecidableEq, Repr

/-- A React Flow node as built by `StoryGraph` (type `storyNode`, initial
position `(0,0)`; only the id and the `data` payload carry information). -/
structure RenderNode where
  id : String
  data : StoryNodeData
deriving DecidableEq, Repr

/-- A React Flow edge as built by `StoryGraph`: id `e-<source>-<target>`,
winner emphasis (`style` and `animated` both derive from `isWinner`), and
an optional textual vote-count label. -/
structure RenderEdge where
  id : String
  source : String
  target : String
  isWinner : Bool
  animated : Bool
  label : Option String
deriving DecidableEq, Repr

/-- One node of the view model (`StoryGraph.tsx` lines 186–197):
`label || 'Untitled'` (the empty string is the only falsy `string`),
`isCurrent = (node.id === currentTaleId)` with `currentTaleId` possibly
`undefined`, winner-path membership from `winnerNodes`, and the
`isDeleted` passthrough (`?? false` is the identity on `boolean`). -/
def mkRenderNode (winners : List String) (currentTaleId : Option String)
    (node : StoryMapNode) : RenderNode :=
  { id := node.id
    data :=
      { label := if node.label = "" then "Untitled" else node.label
        nodeType := node.type
        isCurrent := some node.id == currentTaleId
        isOnWinnerPath := decide (node.id ∈ winners)
        isDeleted := node.isDeleted } }

/-- One edge of the view model (`StoryGraph.tsx` lines 200–216):
`isWinner = goldenPath.has(edgeKey)`, `animated = isWinner`, and
`label = edge.votes > 0 ? String(edge.votes) : undefined`. -/
def mkRenderEdge (goldenPath : List (String × String)) (edge : EdgeData) :
    RenderEdge :=
  let edgeKey := edge.sourceId ++ "-" ++ edge.targetId
  { id := "e-" ++ edgeKey
    source := edge.sourceId
    target := edge.targetId
    isWinner := mapHas goldenPath edgeKey
    animated := mapHas goldenPath edgeKey
    label := if edge.votes > 0 then some (toString edge.votes) else none }

/-- The `useMemo` body of `StoryGraph` (`StoryGraph.tsx` lines 168–219):
empty node/edge model when `mapData` is missing or has no nodes, otherwise
the golden path is computed once and the node and edge lists are mapped
into render elements. -/
def buildViewModel (mapData : Option StoryMapResponse)
    (currentTaleId : Option String) : List RenderNode × List RenderEdge :=
  match mapData with
  | none => ([], [])
  | some m =>
    if m.nodes.isEmpty then ([], [])
    else
      let goldenPath := processGoldenPath m.edges
      let winners := winnerNodes goldenPath
      (m.nodes.map (mkRenderNode winners currentTaleId),
       m.edges.map (mkRenderEdge goldenPath))

/-- The three top-level render branches of the `StoryGraph` component. -/
inductive GraphRenderState where
  | loading
  | empty
  | graph
deriving DecidableEq, Repr

/-- Branch selection in `StoryGraph` (`StoryGraph.tsx` lines 237–306):
the loading branch when `isLoading`, the empty branch when `!mapData ||
processedNodes.length === 0`, the populated graph otherwise. -/
def renderState (isLoading : Bool) (mapData : Option StoryMapResponse)
    (currentTaleId : Option String) : GraphRenderState :=
  if isLoading then .loading
  else if mapData.isNone || (buildViewModel mapData currentTaleId).1.isEmpty then .empty
  else .graph

/-- The status text each non-graph branch of `StoryGraph` displays. -/
def stateMessage : GraphRenderState → Option String
  | .loading => some "Loading story map..."
  | .empty => some "No story map available"
  | .graph => none

/-- The label text rendered by `StoryNode`
(`StoryNode.tsx`: `isDeleted ? '[Deleted]' : (label || 'Untitled')`). -/
def displayedLabel (d : StoryNodeData) : String :=
  if d.isDeleted then "[Deleted]"
  else if d.label = "" then "Untitled" else d.label

/-- The type-indicator badge rendered by `StoryNode`
(`StoryNode.tsx`: `{!isDeleted && getTypeIndicator()}`, where
`getTypeIndicator` yields a badge for `ROOT` and `LEAF` and `null` for
`BRANCH`). -/
def typeIndicator (d : StoryNodeData) : Option StoryMapNodeType :=
  if d.isDeleted then none
  else
    match d.nodeType with
    | .ROOT => some .ROOT
    | .LEAF => some .LEAF
    | .BRANCH => none

/-- The map-fetch slice of `ReaderView`'s state
(`storyMapData` and `isMapLoading`). -/
structure MapFetchState where
  storyMapData : Option StoryMapResponse
  isMapLoading : Bool
deriving DecidableEq, Repr

/-- How one `fetchMapData` invocation settles. -/
inductive FetchResult where
  | success (d : StoryMapResponse)
  | failure
deriving DecidableEq, Repr

/-- The state updates `fetchMapData` performs when its request settles
(`ReaderView.tsx` lines 138–146): on success `setStoryMapData(mapData)`,
on failure `setStoryMapData(null)`, and `setIsMapLoading(false)` in the
`finally` block. The handler does not consult which tale id is currently
requested. -/
def applyResolution (_s : MapFetchState) (r : FetchResult) : MapFetchState :=
  match r with
  | .success d => { storyMapData := some d, isMapLoading := false }
  | .failure => { storyMapData := none, isMapLoading := false }

/-- Apply a sequence of fetch resolutions in the order the event loop
delivers them. -/
def runResolutions (s : MapFetchState) (rs : List FetchResult) : MapFetchState :=
  rs.foldl applyResolution s

/-- The optimistic-vote slice of `ReaderView`'s state: the `votedTales`
set and the `optimisticVotes` record. -/
structure VoteState where
  votedTales : List String
  optimisticVotes : List (String × Int)
deriving DecidableEq, Repr

/-- Reading `prev[taleId]` from the `optimisticVotes` record
(`undefined` when the key is absent). -/
def recordGet (r : List (String × Int)) (k : String) : Option Int :=
  (r.find? (fun p => p.1 = k)).map Prod.snd

/-- `{ ...prev, [taleId]: v }`: overwrite in place when present, append
otherwise. -/
def recordSet (r : List (String × Int)) (k : String) (v : Int) :
    List (String × Int) :=
  if k ∈ r.map Prod.fst then
    r.map (fun p => if p.1 = k then (k, v) else p)
  else
    r ++ [(k, v)]

/-- The `onMutate` handler of the vote mutation (`ReaderView.tsx`
lines 170–177): add the tale to `votedTales` and bump its overlay count
by one (`(prev[taleId] ?? 0) + 1`). -/
def onMutate (taleId : String) (s : VoteState) : VoteState :=
  { votedTales := setAdd s.votedTales taleId
    optimisticVotes :=
      recordSet s.optimisticVotes taleId
        ((recordGet s.optimisticVotes taleId).getD 0 + 1) }

/-- The `onError` handler of the vote mutation (`ReaderView.tsx`
lines 178–189): remove the tale from `votedTales` and decrement its
overlay count (`(prev[taleId] ?? 1) - 1`). -/
def onError (taleId : String) (s : VoteState) : VoteState :=
  { votedTales := s.votedTales.filter (fun x => x ≠ taleId)
    optimisticVotes :=
      recordSet s.optimisticVotes taleId
        ((recordGet s.optimisticVotes taleId).getD 1 - 1) }

/-- The vote count `ReaderView` displays for the current tale
(`ReaderView.tsx` line 431):
`(data.votes ?? 0) + (optimisticVotes[data.id] ?? 0)`. -/
def displayedVotes (serverVotes : Int) (s : VoteState) (taleId : String) : Int :=
  serverVotes + (recordGet s.optimisticVotes taleId).getD 0

/-- The invariant tying the `edgesBySource` accumulator to the list of
edges already processed: every group holds exactly the edges of its
source, and every processed edge's source has a group. -/
def GroupingOf (l : List EdgeData) (gs : List (String × List EdgeData)) : Prop :=
  (∀ p ∈ gs, p.2 = l.filter (fun e => e.sourceId = p.1)) ∧
  (∀ e ∈ l, e.sourceId ∈ gs.map Prod.fst)

/-! ### Concrete inputs used by the witnesses and counterexamples -/

/-- A single winning edge whose source id contains the `'-'` separator,
as every GUID-shaped id used by the host does. -/
def guidEdge : EdgeData := ⟨"a-b", "c", 1⟩

/-- Story map returned for tale id `A`. -/
def taleMapA : StoryMapResponse := ⟨[⟨"A", "Tale A", .ROOT, false⟩], []⟩

/-- Story map returned for tale id `B`. -/
def taleMapB : StoryMapResponse := ⟨[⟨"B", "Tale B", .ROOT, false⟩], []⟩

/-- A source with sibling votes `[5, 5, 3]`: a tie at the maximum. -/
def tieEdges : List EdgeData := [⟨"s", "t", 5⟩, ⟨"s", "u", 5⟩, ⟨"s", "v", 3⟩]

/-- A source whose outgoing edges all have zero votes. -/
def zeroEdges : List EdgeData := [⟨"z", "t", 0⟩, ⟨"z", "u", 0⟩]

/-- Two tied edges, in one order. -/
def permEdgesA : List EdgeData := [⟨"s", "t", 5⟩, ⟨"s", "u", 5⟩]

/-- The same two edges, reordered. -/
def permEdgesB : List EdgeData := [⟨"s", "u", 5⟩, ⟨"s", "t", 5⟩]

/-- A map with no nodes at all. -/
def emptyMap : StoryMapResponse := ⟨[], []⟩

/-- A map with one node and no edges. -/
def oneNodeMap : StoryMapResponse := ⟨[⟨"n1", "Start", .ROOT, false⟩], []⟩

/-! ### Key-set lemmas for the golden-path aggregator -/

theorem map_fst_mapSet (m : List (String × String)) (k v : String) :
    (mapSet m k v).map Prod.fst =
      if k ∈ m.map Prod.fst then m.map Prod.fst else m.map Prod.fst ++ [k] := by
  unfold mapSet
  by_cases h : k ∈ m.map Prod.fst
  · rw [if_pos h, if_pos h, List.map_map]
    refine List.map_congr_left ?_
    intro p _
    by_cases hp : p.1 = k <;> simp [Function.comp, hp]
  · rw [if_neg h, if_neg h, List.map_append]
    rfl

theorem mem_map_fst_mapSet {m : List (String × String)} {k v k' : String} :
    k' ∈ (mapSet m k v).map Prod.fst ↔ k' ∈ m.map Prod.fst ∨ k' = k := by
  rw [map_fst_mapSet]
  by_cases h : k ∈ m.map Prod.fst
  · rw [if_pos h]
    constructor
    · exact Or.inl
    · rintro (hk | rfl)
      · exact hk
      · exact h
  · rw [if_neg h, List.mem_append, List.mem_singleton]

theorem mem_keys_groupFold (s : String) (mV : Nat) :
    ∀ (G : List EdgeData) (w : List (String × String)) (k : String),
      k ∈ ((G.foldl
            (fun acc e =>
              if e.votes = mV then
                mapSet acc (s ++ "-" ++ e.targetId) e.targetId
              else acc)
            w).map Prod.fst)
        ↔ k ∈ w.map Prod.fst ∨
            ∃ e ∈ G, e.votes = mV ∧ k = s ++ "-" ++ e.targetId := by
  intro G
  induction G with
  | nil => intro w k; simp
  | cons e G ih =>
    intro w k
    rw [List.foldl_cons]
    by_cases hv : e.votes = mV
    · simp only [hv, if_true, ih, mem_map_fst_mapSet, List.mem_cons]
      constructor
      · rintro ((hw | rfl) | ⟨e', he', hv', hk⟩)
        · exact Or.inl hw
        · exact Or.inr ⟨e, Or.inl rfl, hv, rfl⟩
        · exact Or.inr ⟨e', Or.inr he', hv', hk⟩
      · rintro (hw | ⟨e', he' | he', hv', hk⟩)
        · exact Or.inl (Or.inl hw)
        · subst he'
          exact Or.inl (Or.inr hk)
        · exact Or.inr ⟨e', he', hv', hk⟩
    · simp only [hv, if_false, ih, List.mem_cons]
      constructor
      · rintro (hw | ⟨e', he', hv', hk⟩)
        · exact Or.inl hw
        · exact Or.inr ⟨e', Or.inr he', hv', hk⟩
      · rintro (hw | ⟨e', he' | he', hv', hk⟩)
        · exact Or.inl hw
        · subst he'
          exact absurd hv' hv
        · exact Or.inr ⟨e', he', hv', hk⟩

theorem mem_keys_processGroup {w : List (String × String)} {s : String}
    {G : List EdgeData} {k : String} :
    k ∈ (processGroup w s G).map Prod.fst
      ↔ k ∈ w.map Prod.fst ∨
          (maxVotes G ≠ 0 ∧
            ∃ e ∈ G, e.votes = maxVotes G ∧ k = s ++ "-" ++ e.targetId) := by
  unfold processGroup
  by_cases h0 : maxVotes G = 0
  · simp [h0]
  · rw [if_neg h0, mem_keys_groupFold s (maxVotes G) G w k]
    constructor
    · rintro (hw | he)
      · exact Or.inl hw
      · exact Or.inr ⟨h0, he⟩
    · rintro (hw | ⟨_, he⟩)
      · exact Or.inl hw
      · exact Or.inr he

theorem mem_keys_groupsFold :
    ∀ (gs : List (String × List EdgeData)) (w : List (String × String)) (k : String),
      k ∈ ((gs.foldl (fun acc p => processGroup acc p.1 p.2) w).map Prod.fst)
        ↔ k ∈ w.map Prod.fst ∨
            ∃ p ∈ gs, maxVotes p.2 ≠ 0 ∧
              ∃ e ∈ p.2, e.votes = maxVotes p.2 ∧ k = p.1 ++ "-" ++ e.targetId := by
  intro gs
  induction gs with
  | nil => intro w k; simp
  | cons g gs ih =>
    intro w k
    rw [List.foldl_cons, ih, mem_keys_processGroup]
    simp only [List.mem_cons]
    constructor
    · rintro ((hw | hg) | ⟨p, hp, hps⟩)
      · exact Or.inl hw
      · exact Or.inr ⟨g, Or.inl rfl, hg⟩
      · exact Or.inr ⟨p, Or.inr hp, hps⟩
    · rintro (hw | ⟨p, hp | hp, hps⟩)
      · exact Or.inl (Or.inl hw)
      · subst hp
        exact Or.inl (Or.inr hps)
      · exact Or.inr ⟨p, hp, hps⟩

theorem groupingOf_upsert {l : List EdgeData} {gs : List (String × List EdgeData)}
    (h : GroupingOf l gs) (e : EdgeData) :
    GroupingOf (l ++ [e]) (groupUpsert gs e) := by
  obtain ⟨h1, h2⟩ := h
  unfold groupUpsert
  by_cases hm : e.sourceId ∈ gs.map Prod.fst
  · rw [if_pos hm]
    constructor
    · intro p hp
      rw [List.mem_map] at hp
      obtain ⟨q, hq, rfl⟩ := hp
      by_cases hqk : q.1 = e.sourceId
      · rw [if_pos hqk]
        rw [List.filter_append, ← h1 q hq]
        simp [hqk.symm]
      · rw [if_neg hqk]
        rw [List.filter_append, ← h1 q hq]
        have : e.sourceId ≠ q.1 := fun hc => hqk hc.symm
        simp [this]
    · intro e' he'
      have hkeys : (gs.map fun p => if p.1 = e.sourceId then (p.1, p.2 ++ [e]) else p).map Prod.fst
          = gs.map Prod.fst := by
        rw [List.map_map]
        refine List.map_congr_left ?_
        intro p _
        by_cases hp : p.1 = e.sourceId <;> simp [Function.comp, hp]
      rw [hkeys]
      rw [List.mem_append, List.mem_singleton] at he'
      rcases he' with he' | rfl
      · exact h2 e' he'
      · exact hm
  · rw [if_neg hm]
    constructor
    · intro p hp
      rw [List.mem_append, List.mem_singleton] at hp
      rcases hp with hp | rfl
      · rw [List.filter_append, ← h1 p hp]
        have hpk : p.1 ∈ gs.map Prod.fst := List.mem_map.mpr ⟨p, hp, rfl⟩
        have : e.sourceId ≠ p.1 := fun hc => hm (hc ▸ hpk)
        simp [this]
      · rw [List.filter_append]
        have hnil : l.filter (fun x => x.sourceId = e.sourceId) = [] := by
          rw [List.filter_eq_nil_iff]
          intro e' he'
          simp only [decide_eq_true_eq]
          exact fun hc => hm (hc ▸ h2 e' he')
        simp [hnil]
    · intro e' he'
      rw [List.map_append, List.mem_append]
      rw [List.mem_append, List.mem_singleton] at he'
      rcases he' with he' | rfl
      · exact Or.inl (h2 e' he')
      · exact Or.inr (by simp)

theorem groupingOf_foldl :
    ∀ (rest pre : List EdgeData) (gs : List (String × List EdgeData)),
      GroupingOf pre gs →
      GroupingOf (pre ++ rest) (rest.foldl groupUpsert gs) := by
  intro rest
  induction rest with
  | nil => intro pre gs h; simpa using h
  | cons e rest ih =>
    intro pre gs h
    rw [List.foldl_cons]
    have := ih (pre ++ [e]) (groupUpsert gs e) (groupingOf_upsert h e)
    simpa [List.append_assoc] using this

theorem groupingOf_edgesBySource (edges : List EdgeData) :
    GroupingOf edges (edgesBySource edges) := by
  have h0 : GroupingOf [] ([] : List (String × List EdgeData)) := by
    constructor <;> intro x hx <;> simp at hx
  simpa [edgesBySource] using groupingOf_foldl edges [] [] h0

/-- Global characterization of the golden-path key set: a key is emitted
exactly when some input edge attains its source group's (nonzero)
maximum vote count and concatenates to that key. -/
theorem mem_winnerKeys (edges : List EdgeData) (k : String) :
    k ∈ winnerKeys edges ↔
      ∃ e ∈ edges,
        maxVotes (edges.filter (fun x => x.sourceId = e.sourceId)) ≠ 0 ∧
        e.votes = maxVotes (edges.filter (fun x => x.sourceId = e.sourceId)) ∧
        k = e.sourceId ++ "-" ++ e.targetId := by
  unfold winnerKeys processGoldenPath
  rw [mem_keys_groupsFold]
  obtain ⟨h1, h2⟩ := groupingOf_edgesBySource edges
  simp only [List.map_nil, List.not_mem_nil, false_or]
  constructor
  · rintro ⟨p, hp, hmax, e, he, hv, hk⟩
    have hfil := h1 p hp
    rw [hfil, List.mem_filter] at he
    obtain ⟨hel, hsrc⟩ := he
    rw [decide_eq_true_eq] at hsrc
    refine ⟨e, hel, ?_, ?_, ?_⟩
    · rw [hsrc, ← hfil]; exact hmax
    · rw [hsrc, ← hfil]; exact hv
    · rw [hsrc]; exact hk
  · rintro ⟨e, he, hmax, hv, hk⟩
    have hkey := h2 e he
    rw [List.mem_map] at hkey
    obtain ⟨p, hp, hpk⟩ := hkey
    have hfil := h1 p hp
    refine ⟨p, hp, ?_, e, ?_, ?_, ?_⟩
    · rw [hfil, hpk]; exact hmax
    · rw [hfil, List.mem_filter]
      exact ⟨he, by rw [decide_eq_true_eq, hpk]⟩
    · rw [hfil, hpk]; exact hv
    · rw [hpk]; exact hk

/-- The keys `processGroup` emits for a source's group, characterized. -/
theorem mem_winnersOfGroup (edges : List EdgeData) (s : String) (k : String) :
    k ∈ winnersOfGroup edges s ↔
      maxVotes (edges.filter (fun e => e.sourceId = s)) ≠ 0 ∧
      ∃ e ∈ edges, e.sourceId = s ∧
        e.votes = maxVotes (edges.filter (fun x => x.sourceId = s)) ∧
        k = s ++ "-" ++ e.targetId := by
  unfold winnersOfGroup
  rw [mem_keys_processGroup]
  simp only [List.map_nil, List.not_mem_nil, false_or]
  constructor
  · rintro ⟨hmax, e, he, hv, hk⟩
    rw [List.mem_filter] at he
    obtain ⟨hel, hsrc⟩ := he
    rw [decide_eq_true_eq] at hsrc
    exact ⟨hmax, e, hel, hsrc, hv, hk⟩
  · rintro ⟨hmax, e, he, hsrc, hv, hk⟩
    refine ⟨hmax, e, ?_, hv, hk⟩
    rw [List.mem_filter]
    exact ⟨he, by rw [decide_eq_true_eq]; exact hsrc⟩

/-! ### Permutation invariance -/

theorem foldl_max_perm {l l' : List Nat} (h : l.Perm l') :
    ∀ a : Nat, l.foldl Nat.max a = l'.foldl Nat.max a := by
  induction h with
  | nil => intro a; rfl
  | cons x _ ih =>
    intro a
    rw [List.foldl_cons, List.foldl_cons]
    exact ih _
  | swap x y l =>
    intro a
    rw [List.foldl_cons, List.foldl_cons, List.foldl_cons, List.foldl_cons]
    have : Nat.max (Nat.max a y) x = Nat.max (Nat.max a x) y := by
      simp only [Nat.max_def]
      split_ifs <;> omega
    rw [this]
  | trans _ _ ih1 ih2 =>
    intro a
    rw [ih1 a, ih2 a]

theorem maxVotes_perm {l l' : List EdgeData} (h : l.Perm l') :
    maxVotes l = maxVotes l' := by
  unfold maxVotes
  exact foldl_max_perm (h.map (fun e => e.votes)) 0

/-! ### Record (optimistic-votes overlay) lemmas -/

theorem recordGet_set_self (r : List (String × Int)) (k : String) (v : Int) :
    recordGet (recordSet r k v) k = some v := by
  unfold recordSet recordGet
  by_cases h : k ∈ r.map Prod.fst
  · rw [if_pos h]
    induction r with
    | nil => simp at h
    | cons q r ih =>
      by_cases hq : q.1 = k
      · simp [List.find?_cons, hq]
      · rw [List.map_cons, List.mem_cons] at h
        rcases h with h | h
        · exact absurd h.symm hq
        · rw [List.map_cons, if_neg hq, List.find?_cons_of_neg _ (by simp [hq])]
          exact ih h
  · rw [if_neg h]
    have hnone : r.find? (fun p => decide (p.1 = k)) = none := by
      rw [List.find?_eq_none]
      intro p hp
      simp only [decide_eq_true_eq]
      exact fun hc => h (List.mem_map.mpr ⟨p, hp, hc⟩)
    rw [List.find?_append, hnone]
    simp

/-! ### Claim theorems -/

/-- C1: the claim states that for every winning edge both its source node
and its target node are marked "on the winner path", for arbitrary opaque
string ids including ids containing `'-'`. The code recovers the source
by `edgeKey.split('-')[0]`, so for the winning edge `("a-b", "c")` it
marks the nonexistent id `"a"` instead of the source `"a-b"`: the source
node of a winning edge is NOT marked when its id contains `'-'`. -/
theorem winner_path_guid_source_not_marked :
    "a-b-c" ∈ winnerKeys [guidEdge] ∧
    winnerNodes (processGoldenPath [guidEdge]) = ["a", "c"] ∧
    "a-b" ∉ winnerNodes (processGoldenPath [guidEdge]) := by
  decide

/-- C2: the claim states that when map fetches for tale ids A then B
overlap and A's fetch resolves after B's, B's data is in effect
afterwards. The fetch effect applies every resolution unconditionally, so
the later-resolving stale response for A overwrites B's data: after the
resolution order [B, A] the state holds A's map, which differs from
B's. -/
theorem stale_map_fetch_overwrites_current :
    (runResolutions ⟨none, true⟩
        [.success taleMapB, .success taleMapA]).storyMapData = some taleMapA ∧
    taleMapA ≠ taleMapB := by
  exact ⟨rfl, by decide⟩

/-- C3: for a source group whose maximum vote count is positive, the
golden-path computation emits exactly the keys of the group's edges tied
at that maximum (all ties are co-winners, strictly lower-voted siblings
contribute no key), and every key so emitted is in the overall winner key
set. -/
theorem golden_path_tie_rule (edges : List EdgeData) (s k : String)
    (hpos : 0 < maxVotes (edges.filter (fun e => e.sourceId = s))) :
    (k ∈ winnersOfGroup edges s ↔
      ∃ e ∈ edges, e.sourceId = s ∧
        e.votes = maxVotes (edges.filter (fun x => x.sourceId = s)) ∧
        k = s ++ "-" ++ e.targetId) ∧
    (k ∈ winnersOfGroup edges s → k ∈ winnerKeys edges) := by
  have hne : maxVotes (edges.filter (fun e => e.sourceId = s)) ≠ 0 :=
    Nat.pos_iff_ne_zero.mp hpos
  constructor
  · rw [mem_winnersOfGroup]
    constructor
    · rintro ⟨_, he⟩
      exact he
    · intro he
      exact ⟨hne, he⟩
  · intro hk
    rw [mem_winnersOfGroup] at hk
    obtain ⟨hmax, e, he, hsrc, hv, hkey⟩ := hk
    rw [mem_winnerKeys]
    exact ⟨e, he, by rw [hsrc]; exact hmax, by rw [hsrc]; exact hv,
      by rw [hsrc]; exact hkey⟩

theorem golden_path_tie_rule_witness :
    ("s-t" ∈ winnersOfGroup tieEdges "s") ∧
    ("s-u" ∈ winnersOfGroup tieEdges "s") ∧
    ("s-t" ∈ winnerKeys tieEdges) := by
  have h1 := golden_path_tie_rule tieEdges "s" "s-t" (by decide)
  have h2 := golden_path_tie_rule tieEdges "s" "s-u" (by decide)
  refine ⟨?_, ?_, ?_⟩
  · exact h1.1.mpr ⟨⟨"s", "t", 5⟩, by decide, rfl, by decide, rfl⟩
  · exact h2.1.mpr ⟨⟨"s", "u", 5⟩, by decide, rfl, by decide, rfl⟩
  · exact h1.2 (h1.1.mpr ⟨⟨"s", "t", 5⟩, by decide, rfl, by decide, rfl⟩)

/-- C4: for a source group whose maximum vote count is zero, the
golden-path computation emits no winner key for that group (absence of
votes is not a tie at zero); moreover every key in the overall winner set
originates from an edge attaining a positive group maximum. -/
theorem golden_path_zero_vote_rule (edges : List EdgeData) (s k : String)
    (h0 : maxVotes (edges.filter (fun e => e.sourceId = s)) = 0) :
    winnersOfGroup edges s = [] ∧
    (k ∈ winnerKeys edges →
      ∃ e ∈ edges,
        0 < maxVotes (edges.filter (fun x => x.sourceId = e.sourceId)) ∧
        e.votes = maxVotes (edges.filter (fun x => x.sourceId = e.sourceId)) ∧
        k = e.sourceId ++ "-" ++ e.targetId) := by
  constructor
  · unfold winnersOfGroup processGroup
    rw [if_pos h0]
    rfl
  · intro hk
    rw [mem_winnerKeys] at hk
    obtain ⟨e, he, hmax, hv, hkey⟩ := hk
    exact ⟨e, he, Nat.pos_of_ne_zero hmax, hv, hkey⟩

theorem golden_path_zero_vote_rule_witness :
    winnersOfGroup zeroEdges "z" = [] ∧ "z-t" ∉ winnerKeys zeroEdges := by
  refine ⟨(golden_path_zero_vote_rule zeroEdges "z" "z-t" (by decide)).1, ?_⟩
  decide

/-- C5: the golden-path computation is deterministic (recomputing on the
same list yields the same winners map) and order-independent: permuting
the input edge list leaves the winner key set unchanged. -/
theorem golden_path_order_independent (l l' : List EdgeData) (h : l.Perm l') :
    processGoldenPath l = processGoldenPath l ∧
    (∀ k, k ∈ winnerKeys l ↔ k ∈ winnerKeys l') := by
  refine ⟨rfl, fun k => ?_⟩
  rw [mem_winnerKeys, mem_winnerKeys]
  constructor
  · rintro ⟨e, he, hmax, hv, hk⟩
    have hm := maxVotes_perm (h.filter (fun x => x.sourceId = e.sourceId))
    exact ⟨e, h.mem_iff.mp he, by rw [← hm]; exact hmax, by rw [← hm]; exact hv, hk⟩
  · rintro ⟨e, he, hmax, hv, hk⟩
    have hm := maxVotes_perm (h.filter (fun x => x.sourceId = e.sourceId))
    exact ⟨e, h.mem_iff.mpr he, by rw [hm]; exact hmax, by rw [hm]; exact hv, hk⟩

theorem golden_path_order_independent_witness :
    "s-t" ∈ winnerKeys permEdgesA ↔ "s-t" ∈ winnerKeys permEdgesB := by
  have hperm : permEdgesA.Perm permEdgesB := by
    unfold permEdgesA permEdgesB
    exact List.Perm.swap _ _ _
  exact (golden_path_order_independent permEdgesA permEdgesB hperm).2 "s-t"

/-- C6: a missing map or an empty node array yields the empty node/edge
model and the "No story map available" empty state, which is distinct
from the loading state; the loading state takes precedence exactly while
`isLoading` is true. -/
theorem empty_map_rendering (c : Option String) (m : StoryMapResponse)
    (md : Option StoryMapResponse) (hm : m.nodes = []) :
    buildViewModel none c = ([], []) ∧
    buildViewModel (some m) c = ([], []) ∧
    renderState false none c = GraphRenderState.empty ∧
    renderState false (some m) c = GraphRenderState.empty ∧
    stateMessage GraphRenderState.empty = some "No story map available" ∧
    GraphRenderState.empty ≠ GraphRenderState.loading ∧
    renderState true md c = GraphRenderState.loading ∧
    renderState false md c ≠ GraphRenderState.loading := by
  refine ⟨rfl, ?_, rfl, ?_, rfl, by decide, rfl, ?_⟩
  · simp [buildViewModel, hm]
  · simp [renderState, buildViewModel, hm]
  · unfold renderState
    simp only [Bool.false_eq_true, if_false]
    split
    · decide
    · decide

theorem empty_map_rendering_witness :
    buildViewModel (some emptyMap) none = ([], []) ∧
    renderState false (some emptyMap) none = GraphRenderState.empty := by
  have h := empty_map_rendering none emptyMap none rfl
  exact ⟨h.2.1, h.2.2.2.1⟩

/-- C7: when the current tale id occurs among none of the node ids, every
node of the built view model has `isCurrent = false`. -/
theorem missing_current_id_marks_none (m : StoryMapResponse) (c : String)
    (rn : RenderNode)
    (habsent : ∀ n ∈ m.nodes, n.id ≠ c)
    (hrn : rn ∈ (buildViewModel (some m) (some c)).1) :
    rn.data.isCurrent = false := by
  rcases m with ⟨nodes, edges⟩
  cases nodes with
  | nil => simp [buildViewModel] at hrn
  | cons n ns =>
    have hvm : (buildViewModel (some ⟨n :: ns, edges⟩) (some c)).1
        = (n :: ns).map
            (mkRenderNode (winnerNodes (processGoldenPath edges)) (some c)) := rfl
    rw [hvm, List.mem_map] at hrn
    obtain ⟨a, ha, rfl⟩ := hrn
    have hne : a.id ≠ c := habsent a ha
    simp only [mkRenderNode]
    rw [beq_eq_false_iff_ne]
    intro hcontra
    exact hne (Option.some.inj hcontra)

theorem missing_current_id_marks_none_witness :
    (mkRenderNode (winnerNodes (processGoldenPath oneNodeMap.edges)) (some "x")
        ⟨"n1", "Start", .ROOT, false⟩).data.isCurrent = false :=
  missing_current_id_marks_none oneNodeMap "x" _ (by decide) (by decide)

/-- C8: every render edge carries the textual vote-count label exactly
when the edge's vote count is positive, and no label at all when it is
zero. -/
theorem edge_vote_label (m : StoryMapResponse) (c : Option String)
    (gp : List (String × String)) (e : EdgeData) (hne : m.nodes ≠ []) :
    (buildViewModel (some m) c).2
        = m.edges.map (mkRenderEdge (processGoldenPath m.edges)) ∧
    (mkRenderEdge gp e).label
        = (if e.votes > 0 then some (toString e.votes) else none) ∧
    (e.votes = 0 → (mkRenderEdge gp e).label = none) := by
  refine ⟨?_, rfl, ?_⟩
  · rcases m with ⟨nodes, edges⟩
    cases nodes with
    | nil => exact absurd rfl hne
    | cons n ns => rfl
  · intro h0
    simp [mkRenderEdge, h0]

theorem edge_vote_label_witness :
    (buildViewModel
        (some ⟨[⟨"n", "", StoryMapNodeType.ROOT, false⟩], [⟨"n", "m", 2⟩]⟩)
        none).2
      = [mkRenderEdge (processGoldenPath [⟨"n", "m", 2⟩]) ⟨"n", "m", 2⟩] ∧
    (mkRenderEdge [] (⟨"a", "b", 0⟩ : EdgeData)).label = none := by
  have h := edge_vote_label ⟨[⟨"n", "", .ROOT, false⟩], [⟨"n", "m", 2⟩]⟩ none
    [] ⟨"a", "b", 0⟩ (by decide)
  exact ⟨h.1, h.2.2 rfl⟩

/-- C9: when the optimistic vote step for a tale runs and the request
fails, the rollback removes the tale from the voted set and restores the
overlay count, so the displayed vote count again equals what it was
before the optimistic step — in particular the authoritative server count
whenever the overlay was clear beforehand. -/
theorem optimistic_vote_rollback (s : VoteState) (t : String) (server : Int)
    (hclean : (recordGet s.optimisticVotes t).getD 0 = 0) :
    t ∉ (onError t (onMutate t s)).votedTales ∧
    (recordGet (onError t (onMutate t s)).optimisticVotes t).getD 0
      = (recordGet s.optimisticVotes t).getD 0 ∧
    displayedVotes server (onError t (onMutate t s)) t
      = displayedVotes server s t ∧
    displayedVotes server (onError t (onMutate t s)) t = server := by
  have h1 : recordGet (onMutate t s).optimisticVotes t
      = some ((recordGet s.optimisticVotes t).getD 0 + 1) :=
    recordGet_set_self _ _ _
  have h2 : recordGet (onError t (onMutate t s)).optimisticVotes t
      = some ((recordGet (onMutate t s).optimisticVotes t).getD 1 - 1) :=
    recordGet_set_self _ _ _
  rw [h1] at h2
  simp only [Option.getD_some] at h2
  have h3 : recordGet (onError t (onMutate t s)).optimisticVotes t
      = some ((recordGet s.optimisticVotes t).getD 0) := by
    rw [h2]
    congr 1
    omega
  refine ⟨?_, ?_, ?_, ?_⟩
  · intro hc
    have : (onError t (onMutate t s)).votedTales
        = (onMutate t s).votedTales.filter (fun x => x ≠ t) := rfl
    rw [this, List.mem_filter] at hc
    simp at hc
  · rw [h3]
    simp
  · unfold displayedVotes
    rw [h3]
    simp
  · unfold displayedVotes
    rw [h3, hclean]
    simp

theorem optimistic_vote_rollback_witness :
    "t1" ∉ (onError "t1" (onMutate "t1" ⟨[], []⟩)).votedTales ∧
    displayedVotes 7 (onError "t1" (onMutate "t1" ⟨[], []⟩)) "t1" = 7 := by
  have h := optimistic_vote_rollback ⟨[], []⟩ "t1" 7 rfl
  exact ⟨h.1, h.2.2.2⟩

/-- C10: a deleted node renders the literal "[Deleted]" in place of its
label and omits the ROOT/LEAF type-indicator badge; the label (with its
"Untitled" fallback) is shown only for non-deleted nodes; the view-model
builder passes `isDeleted` through unchanged. -/
theorem deleted_node_rendering (d d₂ : StoryNodeData) (winners : List String)
    (c : Option String) (n : StoryMapNode)
    (hd : d.isDeleted = true) (hd₂ : d₂.isDeleted = false) :
    displayedLabel d = "[Deleted]" ∧
    typeIndicator d = none ∧
    displayedLabel d₂ = (if d₂.label = "" then "Untitled" else d₂.label) ∧
    (mkRenderNode winners c n).data.isDeleted = n.isDeleted := by
  refine ⟨?_, ?_, ?_, rfl⟩
  · simp [displayedLabel, hd]
  · simp [typeIndicator, hd]
  · simp [displayedLabel, hd₂]

theorem deleted_node_rendering_witness :
    displayedLabel ⟨"Secret", .BRANCH, false, false, true⟩ = "[Deleted]" ∧
    typeIndicator ⟨"Secret", .BRANCH, false, false, true⟩ = none ∧
    displayedLabel ⟨"", .ROOT, false, false, false⟩ = "Untitled" := by
  have h := deleted_node_rendering ⟨"Secret", .BRANCH, false, false, true⟩
    ⟨"", .ROOT, false, false, false⟩ [] none ⟨"x", "y", .ROOT, false⟩ rfl rfl
  exact ⟨h.1, h.2.1, h.2.2.1.trans (by simp)⟩

end Votales
